import Mathlib

/-!
Shallow embedding of `src/put_ou_cost_category.py`: a batch job that reads an
organization's account/OU hierarchy, assigns every account a category label
derived from its OU path truncated at a requested depth, compiles the grouped
labels into cost-category rules, and creates or updates the remote
cost-category definition.

Remote services are modelled as a pure environment: the account listing is a
list of account ids, `list_parents` is a function from a child id to its list
of parents, and `describe_organizational_unit` is a function from an OU id to
its display name.  The `while True` parent-chain walk is given explicit fuel;
`none` models non-termination of the Python loop (e.g. a cycle in the parent
relation).  Python dicts are modelled as association lists in insertion order
with unique keys.  Raised `ValueError`s are modelled with `Except String`.
-/

namespace PutOuCostCategory

/-- Configuration constant `DEFAULT_COST_CATEGORY_VALUE` (line 10). -/
def DEFAULT_COST_CATEGORY_VALUE : String := "Uncategorized"

/-- Configuration constant `ROOT_CATEGORY_NAME` (line 11). -/
def ROOT_CATEGORY_NAME : String := "Root"

/-- Configuration constant `CATEGORY_NAME_SEPARATOR` (line 12). -/
def CATEGORY_NAME_SEPARATOR : String := "-"

/-- One entry of a `list_parents` response: `{'Id': ..., 'Type': ...}`
(`Type` is a Lean keyword, hence the field name `ptype`). -/
structure Parent where
  Id : String
  ptype : String
deriving DecidableEq, Repr

/-- The organization as seen through the read-only AWS Organizations calls:
`list_accounts` (already depaginated by `get_paginated_results`),
`list_parents`, and `describe_organizational_unit` (name lookup; the
`ou_name_cache` memoization of `get_ou_name` is semantically transparent, so
the model reads the name directly). -/
structure OrgEnv where
  accounts : List String
  parentsOf : String → List Parent
  ouName : String → String

/-- The parent-chain walk of `get_organization_structure`, lines 103-121:
starting from the account id, repeatedly call `list_parents`; an empty parent
list resets the accumulated components and stops (broken path or directly
under root); an `ORGANIZATIONAL_UNIT` parent contributes its display name and
the walk continues from it; a `ROOT` or unexpected parent type stops the walk
keeping what was accumulated.  `acc` is `path_components` in leaf-to-root
order (Python appends); fuel exhaustion (`none`) models the Python loop not
terminating. -/
def resolvePathAux (env : OrgEnv) : Nat → String → List String → Option (List String)
  | 0, _, _ => none
  | fuel + 1, current_child_id, acc =>
    match env.parentsOf current_child_id with
    | [] => some []
    | parent :: _ =>
      if parent.ptype = "ORGANIZATIONAL_UNIT" then
        resolvePathAux env fuel parent.Id (acc ++ [env.ouName parent.Id])
      else
        some acc

/-- `path_components` after the walk and the final `reverse()` (line 122):
the OU names on the chain from root down to the account's immediate parent. -/
def resolvePath (env : OrgEnv) (fuel : Nat) (account_id : String) : Option (List String) :=
  (resolvePathAux env fuel account_id []).map List.reverse

/-- Label assignment, lines 124-127: start from `ROOT_CATEGORY_NAME`; if the
effective depth (path length) is positive, replace it by the join of the first
`max_depth` path components with the separator. -/
def categoryName (max_depth : Nat) (path : List String) : String :=
  if 0 < path.length then
    String.intercalate CATEGORY_NAME_SEPARATOR (path.take max_depth)
  else
    ROOT_CATEGORY_NAME

/-- `structure[category_name].append(account_id)` with
`if category_name not in structure: structure[category_name] = []`
(lines 129-130) on a dict held as an insertion-ordered association list. -/
def insertAccount (s : List (String × List String)) (label account_id : String) :
    List (String × List String) :=
  match s with
  | [] => [(label, [account_id])]
  | (k, v) :: rest =>
    if k = label then (k, v ++ [account_id]) :: rest
    else (k, v) :: insertAccount rest label account_id

/-- The per-account loop of `get_organization_structure` (lines 98-130) over
the remaining accounts, threading the structure. -/
def buildStructure (env : OrgEnv) (fuel max_depth : Nat) :
    List String → List (String × List String) → Option (List (String × List String))
  | [], s => some s
  | account_id :: rest, s =>
    match resolvePath env fuel account_id with
    | none => none
    | some path => buildStructure env fuel max_depth rest
        (insertAccount s (categoryName max_depth path) account_id)

/-- `category_name in structure` on the association-list dict. -/
def hasKey (s : List (String × List String)) (k : String) : Bool :=
  s.any (fun p => p.1 == k)

/-- `if ROOT_CATEGORY_NAME not in structure: structure[ROOT_CATEGORY_NAME] = []`
(line 133); a dict gains a fresh key at the end of its insertion order. -/
def ensureRootKey (s : List (String × List String)) : List (String × List String) :=
  if hasKey s ROOT_CATEGORY_NAME then s else s ++ [(ROOT_CATEGORY_NAME, [])]

/-- `get_organization_structure(max_depth)` (lines 82-136): list all accounts;
with no accounts return `{ROOT_CATEGORY_NAME: []}` (lines 91-93); otherwise
assign every account to its category and finally guarantee the root key
(line 133).  `none` models a non-terminating parent-chain walk. -/
def get_organization_structure (env : OrgEnv) (fuel max_depth : Nat) :
    Option (List (String × List String)) :=
  if env.accounts.isEmpty then some [(ROOT_CATEGORY_NAME, [])]
  else (buildStructure env fuel max_depth env.accounts []).map ensureRootKey

/-- A Python value sitting in a structure handed to `build_cost_category_rules`:
either a proper list of account-id strings or any other value (`None`, a
string, a number, ...), which fails the `isinstance(account_ids, list)` check
on line 145. -/
inductive PyVal where
  | vlist (xs : List String)
  | other
deriving DecidableEq, Repr

/-- One emitted rule (lines 149-152):
`{'Value': category_name, 'Rule': {'Dimensions': {'Key': 'LINKED_ACCOUNT',
'Values': account_ids, 'MatchOptions': ['EQUALS']}}}`, flattened. -/
structure CCRule where
  Value : String
  DimensionKey : String
  Values : List String
  MatchOptions : List String
deriving DecidableEq, Repr

/-- The body of the loop on lines 143-152 for one sorted key: look the key up
(`org_structure.get`), skip it when the value is missing, not a list, or an
empty list (lines 145-147), otherwise emit the rule. -/
def ruleForKey (org_structure : List (String × PyVal)) (k : String) : Option CCRule :=
  match org_structure.lookup k with
  | some (PyVal.vlist account_ids) =>
    if account_ids = [] then none
    else some ⟨k, "LINKED_ACCOUNT", account_ids, ["EQUALS"]⟩
  | _ => none

/-- `build_cost_category_rules(org_structure)` (lines 138-155): empty/falsy
input gives no rules (line 142); otherwise iterate the keys in sorted order
(line 143), skipping missing/invalid/empty groups; the oversize warnings on
lines 148 and 153 do not change the output. -/
def build_cost_category_rules (org_structure : List (String × PyVal)) : List CCRule :=
  if org_structure.isEmpty then []
  else (List.insertionSort (fun a b : String => a ≤ b)
          (org_structure.map Prod.fst)).filterMap (ruleForKey org_structure)

/-- View of a `get_organization_structure` result as input to
`build_cost_category_rules`: every group is a genuine Python list. -/
def toPyStructure (s : List (String × List String)) : List (String × PyVal) :=
  s.map (fun p => (p.1, PyVal.vlist p.2))

/-- One entry of a `list_cost_category_definitions` page:
`definition.get('Name')` and `definition.get('CostCategoryArn')` may each be
absent (line 171). -/
structure CCRef where
  Name : Option String
  CostCategoryArn : Option String
deriving DecidableEq, Repr

/-- Python truthiness of `retrieved_arn` on line 173: present and non-empty. -/
def truthyArn : Option String → Bool
  | none => false
  | some a => !(a == "")

/-- The inner scan of one page (lines 169-175): the first definition whose
name equals the argument and whose ARN is truthy yields that ARN. -/
def scanPage (cost_category_name : String) : List CCRef → Option String
  | [] => none
  | d :: rest =>
    if d.Name == some cost_category_name && truthyArn d.CostCategoryArn then
      d.CostCategoryArn
    else
      scanPage cost_category_name rest

/-- The manual pagination loop of `find_cost_category_arn` (lines 162-177)
over the remaining pages, also counting the pages requested (`page_count`):
return on the first page containing a match, else follow the next-page token;
no token after the last page ends the loop with not-found. -/
def findArnGo (cost_category_name : String) :
    List (List CCRef) → Nat → Option String × Nat
  | [], page_count => (none, page_count)
  | page :: rest, page_count =>
    match scanPage cost_category_name page with
    | some arn => (some arn, page_count + 1)
    | none => findArnGo cost_category_name rest (page_count + 1)

/-- `find_cost_category_arn(cost_category_name)` (lines 157-179) against a
provider whose listing yields the given pages in order: the found ARN (or
`none`) together with the number of pages requested. -/
def find_cost_category_arn (pages : List (List CCRef)) (cost_category_name : String) :
    Option String × Nat :=
  findArnGo cost_category_name pages 0

/-- The parameters passed to the mutating Cost Explorer call (lines 186-210):
the common arguments plus exactly one of `CostCategoryArn` (update) or `Name`
(create), each `none` when absent from the Python dict. -/
structure Payload where
  RuleVersion : String
  Rules : List CCRule
  DefaultValue : String
  EffectiveStart : String
  CostCategoryArn : Option String
  Name : Option String
deriving DecidableEq, Repr

/-- The single mutating remote call performed by `put_cost_category`
(lines 218-225). -/
inductive ApiCall where
  | update (params : Payload)
  | create (params : Payload)
deriving DecidableEq, Repr

/-- The per-rule quota loop of lines 195-200 on well-typed rules: the first
rule with more than 1000 accounts raises `ValueError`; a rule with 0 accounts
only logs a warning. -/
def checkRuleAccounts : List CCRule → Option String
  | [] => none
  | rule :: rest =>
    if 1000 < rule.Values.length then some "Rule exceeds 1000 account limit."
    else checkRuleAccounts rest

/-- `put_cost_category(cost_category_name, rules, default_value,
effective_start_iso_str)` (lines 181-227): locate the existing definition
(line 183), hard-validate the quotas (lines 194-200, `ValueError` modelled as
`Except.error`, performed before any mutating call), then issue exactly one
mutating call - an update carrying the found ARN and no name, or a create
carrying the name and no ARN (lines 202-225). -/
def put_cost_category (pages : List (List CCRef)) (cost_category_name : String)
    (rules : List CCRule) (default_value effective_start_iso_str : String) :
    Except String ApiCall :=
  let cost_category_arn := (find_cost_category_arn pages cost_category_name).1
  if 500 < rules.length then Except.error "Num rules > 500 limit."
  else match checkRuleAccounts rules with
    | some e => Except.error e
    | none =>
      match cost_category_arn with
      | some arn => Except.ok (ApiCall.update
          ⟨"CostCategoryExpression.v1", rules, default_value, effective_start_iso_str,
            some arn, none⟩)
      | none => Except.ok (ApiCall.create
          ⟨"CostCategoryExpression.v1", rules, default_value, effective_start_iso_str,
            none, some cost_category_name⟩)

/-! ### Concrete environments used to witness the theorems -/

/-- The scenario of the spec: `A1` directly under root, `A2` under OU
"Finance", `A3` under OU "Finance" → OU "Payroll". -/
def envScenario : OrgEnv where
  accounts := ["A1", "A2", "A3"]
  parentsOf := fun c =>
    if c = "A1" then [⟨"r-1", "ROOT"⟩]
    else if c = "A2" then [⟨"ou-fin", "ORGANIZATIONAL_UNIT"⟩]
    else if c = "A3" then [⟨"ou-pay", "ORGANIZATIONAL_UNIT"⟩]
    else if c = "ou-fin" then [⟨"r-1", "ROOT"⟩]
    else if c = "ou-pay" then [⟨"ou-fin", "ORGANIZATIONAL_UNIT"⟩]
    else []
  ouName := fun i =>
    if i = "ou-fin" then "Finance" else if i = "ou-pay" then "Payroll" else "?"

/-- An organization where `list_parents` returns several parents for `A1` and
for the OU above it. -/
def envMulti : OrgEnv where
  accounts := ["A1"]
  parentsOf := fun c =>
    if c = "A1" then [⟨"ou-a", "ORGANIZATIONAL_UNIT"⟩, ⟨"ou-b", "ORGANIZATIONAL_UNIT"⟩]
    else if c = "ou-a" then [⟨"r-1", "ROOT"⟩, ⟨"ou-c", "ORGANIZATIONAL_UNIT"⟩]
    else []
  ouName := fun i => if i = "ou-a" then "Alpha" else "Other"

/-- `envMulti` with every `list_parents` response truncated to its first
entry. -/
def envMultiFirst : OrgEnv :=
  ⟨envMulti.accounts, fun c => (envMulti.parentsOf c).take 1, envMulti.ouName⟩

/-! ### C10: the walk only ever inspects the first returned parent -/

/-- Step equation of the walk at positive fuel. -/
theorem resolvePathAux_succ (env : OrgEnv) (fuel : Nat) (c : String) (acc : List String) :
    resolvePathAux env (fuel + 1) c acc =
      match env.parentsOf c with
      | [] => some []
      | parent :: _ =>
        if parent.ptype = "ORGANIZATIONAL_UNIT" then
          resolvePathAux env fuel parent.Id (acc ++ [env.ouName parent.Id])
        else some acc := rfl

/-- The chain walk is a function of the first parent of each node only. -/
theorem resolvePathAux_firstParent (env env' : OrgEnv)
    (hp : ∀ c, (env.parentsOf c).head? = (env'.parentsOf c).head?)
    (hn : env.ouName = env'.ouName) (fuel : Nat) :
    ∀ (c : String) (acc : List String),
      resolvePathAux env fuel c acc = resolvePathAux env' fuel c acc := by
  induction fuel with
  | zero => intro c acc; rfl
  | succ n ih =>
    intro c acc
    have h := hp c
    rw [resolvePathAux_succ, resolvePathAux_succ]
    cases h1 : env.parentsOf c with
    | nil =>
      cases h2 : env'.parentsOf c with
      | nil => rfl
      | cons q t => rw [h1, h2] at h; simp at h
    | cons p t =>
      cases h2 : env'.parentsOf c with
      | nil => rw [h1, h2] at h; simp at h
      | cons q t' =>
        rw [h1, h2] at h
        simp only [List.head?_cons, Option.some.injEq] at h
        subst h
        dsimp only
        rw [hn]
        split
        · exact ih p.Id (acc ++ [env'.ouName p.Id])
        · rfl

/-- C10: when a parent lookup returns more than one parent at some hop, the
walk of `get_organization_structure` inspects only the first returned parent
and ignores the rest: two environments whose parent lookups agree on the
first returned parent (and on OU names) resolve every account to the same
path, with no error. -/
theorem c10_first_parent_only (env env' : OrgEnv)
    (hp : ∀ c, (env.parentsOf c).head? = (env'.parentsOf c).head?)
    (hn : env.ouName = env'.ouName) (fuel : Nat) (account_id : String) :
    resolvePath env fuel account_id = resolvePath env' fuel account_id := by
  unfold resolvePath
  rw [resolvePathAux_firstParent env env' hp hn fuel account_id []]

/-- Witness for C10: an environment with two parents per hop resolves exactly
as its truncation to first parents, and the extra parents are ignored. -/
theorem c10_first_parent_only_witness :
    resolvePath envMulti 3 "A1" = resolvePath envMultiFirst 3 "A1" ∧
    resolvePath envMulti 3 "A1" = some ["Alpha"] :=
  ⟨c10_first_parent_only envMulti envMultiFirst
      (fun c => by
        show (envMulti.parentsOf c).head? = ((envMulti.parentsOf c).take 1).head?
        cases envMulti.parentsOf c <;> rfl)
      rfl 3 "A1",
   by decide⟩

/-! ### C8: the resource locator stops at the first matching page -/

/-- Pages without a match are requested and passed over, each consuming one
page request. -/
theorem findArnGo_skip (name : String) (front : List (List CCRef))
    (h : ∀ p ∈ front, scanPage name p = none) (rest : List (List CCRef)) (n : Nat) :
    findArnGo name (front ++ rest) n = findArnGo name rest (n + front.length) := by
  induction front generalizing n with
  | nil => simp
  | cons p t ih =>
    have hp : scanPage name p = none := h p (List.mem_cons_self p t)
    simp only [List.cons_append, findArnGo, hp, List.append_eq]
    rw [ih (fun q hq => h q (List.mem_cons_of_mem p hq)) (n + 1)]
    congr 1
    simp only [List.length_cons]
    omega

/-- A run of pages without any match ends not-found after requesting them
all. -/
theorem findArnGo_none (name : String) (pages : List (List CCRef))
    (h : ∀ p ∈ pages, scanPage name p = none) (n : Nat) :
    findArnGo name pages n = (none, n + pages.length) := by
  induction pages generalizing n with
  | nil => simp [findArnGo]
  | cons p t ih =>
    have hp : scanPage name p = none := h p (List.mem_cons_self p t)
    simp only [findArnGo, hp]
    rw [ih (fun q hq => h q (List.mem_cons_of_mem p hq)) (n + 1)]
    simp only [List.length_cons]
    congr 1
    omega

/-- C8: `find_cost_category_arn` returns the ARN of the first entry (in page
order, then entry order) whose name equals the requested name and whose ARN
is non-empty, after requesting only the pages up to and including that one -
the pages after it are irrelevant; with no matching entry anywhere it
requests every page and reports not-found; within one page the scan picks the
first matching entry. -/
theorem c8_locator_first_match :
    (∀ (name : String) (front : List (List CCRef)) (page : List CCRef)
       (rest : List (List CCRef)),
       (∀ p ∈ front, scanPage name p = none) → ∀ arn, scanPage name page = some arn →
       find_cost_category_arn (front ++ page :: rest) name = (some arn, front.length + 1))
    ∧ (∀ (name : String) (pages : List (List CCRef)),
       (∀ p ∈ pages, scanPage name p = none) →
       find_cost_category_arn pages name = (none, pages.length))
    ∧ (∀ (name : String) (efront : List CCRef) (d : CCRef) (erest : List CCRef),
       (∀ e ∈ efront, (e.Name == some name && truthyArn e.CostCategoryArn) = false) →
       (d.Name == some name && truthyArn d.CostCategoryArn) = true →
       scanPage name (efront ++ d :: erest) = d.CostCategoryArn) := by
  refine ⟨?_, ?_, ?_⟩
  · intro name front page rest hfront arn hpage
    unfold find_cost_category_arn
    rw [findArnGo_skip name front hfront (page :: rest) 0]
    simp [findArnGo, hpage, Nat.add_comm]
  · intro name pages h
    unfold find_cost_category_arn
    rw [findArnGo_none name pages h 0]
    simp
  · intro name efront d erest hfront hd
    induction efront with
    | nil => simp [scanPage, hd]
    | cons e t ih =>
      have he : (e.Name == some name && truthyArn e.CostCategoryArn) = false :=
        hfront e (List.mem_cons_self e t)
      simp only [List.cons_append, scanPage, he, if_false]
      exact ih (fun q hq => hfront q (List.mem_cons_of_mem e hq))

/-- Witness for C8: in a 3-page listing whose match sits on page 2, the
locator returns that ARN after two page requests; an empty single page yields
not-found after one request. -/
theorem c8_locator_first_match_witness :
    find_cost_category_arn
        [[⟨some "x", some "arn-x"⟩], [⟨some "n", some "arn-n"⟩],
         [⟨some "y", some "arn-y"⟩]] "n" = (some "arn-n", 2) ∧
    find_cost_category_arn [[]] "n" = (none, 1) := by
  constructor
  · have h := c8_locator_first_match.1 "n" [[⟨some "x", some "arn-x"⟩]]
      [⟨some "n", some "arn-n"⟩] [[⟨some "y", some "arn-y"⟩]]
      (by decide) "arn-n" (by decide)
    simpa using h
  · exact c8_locator_first_match.2.1 "n" [[]] (by decide)

/-! ### C3 and C4: quota validation and create-vs-update branch selection -/

/-- The per-rule account-count check passes exactly when every rule stays
within the 1000-account quota. -/
theorem checkRuleAccounts_eq_none_iff (rules : List CCRule) :
    checkRuleAccounts rules = none ↔ ∀ r ∈ rules, r.Values.length ≤ 1000 := by
  induction rules with
  | nil => simp [checkRuleAccounts]
  | cons r t ih =>
    by_cases hr : 1000 < r.Values.length
    · constructor
      · intro h
        rw [checkRuleAccounts, if_pos hr] at h
        cases h
      · intro h
        exact absurd (h r (List.mem_cons_self r t)) (by omega)
    · rw [checkRuleAccounts, if_neg hr, ih]
      constructor
      · intro h x hx
        rcases List.mem_cons.mp hx with rfl | hx
        · omega
        · exact h x hx
      · intro h x hx
        exact h x (List.mem_cons_of_mem r hx)

/-- C3: the reconciler hard-fails validation (no mutating call is produced)
whenever the rule count exceeds 500 or some rule carries more than 1000
accounts, and succeeds otherwise - in particular a rule with 0 accounts does
not cause a failure. -/
theorem c3_quota_validation (pages : List (List CCRef)) (name : String)
    (rules : List CCRule) (dv es : String) :
    ((500 < rules.length ∨ ∃ r ∈ rules, 1000 < r.Values.length) →
      ∃ e, put_cost_category pages name rules dv es = Except.error e)
    ∧ ((rules.length ≤ 500 ∧ ∀ r ∈ rules, r.Values.length ≤ 1000) →
      ∃ c, put_cost_category pages name rules dv es = Except.ok c) := by
  constructor
  · intro hbad
    by_cases hlen : 500 < rules.length
    · exact ⟨_, by simp only [put_cost_category]; rw [if_pos hlen]⟩
    · rcases hbad with hbad | ⟨r, hr, hr1000⟩
      · exact absurd hbad hlen
      · have hne : ¬ (checkRuleAccounts rules = none) := by
          rw [checkRuleAccounts_eq_none_iff]
          intro h
          exact absurd (h r hr) (by omega)
        cases hc : checkRuleAccounts rules with
        | none => exact absurd hc hne
        | some e =>
          exact ⟨e, by simp only [put_cost_category]; rw [if_neg hlen, hc]⟩
  · rintro ⟨hlen, hall⟩
    have hchk : checkRuleAccounts rules = none :=
      (checkRuleAccounts_eq_none_iff rules).mpr hall
    cases harn : (find_cost_category_arn pages name).1 with
    | some arn =>
      exact ⟨_, by simp only [put_cost_category]; rw [if_neg (by omega), hchk, harn]⟩
    | none =>
      exact ⟨_, by simp only [put_cost_category]; rw [if_neg (by omega), hchk, harn]⟩

/-- A rule whose `Values` list holds 1001 account ids. -/
def bigRule : CCRule := ⟨"Big", "LINKED_ACCOUNT", List.replicate 1001 "111111111111", ["EQUALS"]⟩

/-- A well-formed rule with an empty account list. -/
def emptyRule : CCRule := ⟨"Empty", "LINKED_ACCOUNT", [], ["EQUALS"]⟩

/-- Witness for C3: one 1001-account rule is rejected before any mutating
call, while a 0-account rule passes validation. -/
theorem c3_quota_validation_witness :
    (∃ e, put_cost_category [] "CC" [bigRule] "Uncategorized" "2024-01-01T00:00:00Z" =
      Except.error e)
    ∧ (∃ c, put_cost_category [] "CC" [emptyRule] "Uncategorized" "2024-01-01T00:00:00Z" =
      Except.ok c) :=
  ⟨(c3_quota_validation [] "CC" [bigRule] "Uncategorized" "2024-01-01T00:00:00Z").1
      (Or.inr ⟨bigRule, List.mem_cons_self _ _,
        by simp only [bigRule, List.length_replicate]; omega⟩),
   (c3_quota_validation [] "CC" [emptyRule] "Uncategorized" "2024-01-01T00:00:00Z").2
      ⟨by simp [emptyRule], by simp [emptyRule]⟩⟩

/-- C4: once quota validation passes, the reconciler issues exactly one
mutating call, determined by the locator: a found ARN yields an update whose
payload carries that ARN and no name; a not-found result yields a create
whose payload carries the name and no ARN. -/
theorem c4_branch_selection (pages : List (List CCRef)) (name : String)
    (rules : List CCRule) (dv es : String)
    (hlen : rules.length ≤ 500) (hacct : ∀ r ∈ rules, r.Values.length ≤ 1000) :
    (∀ arn, (find_cost_category_arn pages name).1 = some arn →
      put_cost_category pages name rules dv es = Except.ok (ApiCall.update
        ⟨"CostCategoryExpression.v1", rules, dv, es, some arn, none⟩))
    ∧ ((find_cost_category_arn pages name).1 = none →
      put_cost_category pages name rules dv es = Except.ok (ApiCall.create
        ⟨"CostCategoryExpression.v1", rules, dv, es, none, some name⟩)) := by
  have hchk : checkRuleAccounts rules = none :=
    (checkRuleAccounts_eq_none_iff rules).mpr hacct
  constructor
  · intro arn h
    simp only [put_cost_category]
    rw [if_neg (by omega), hchk, h]
  · intro h
    simp only [put_cost_category]
    rw [if_neg (by omega), hchk, h]

/-- Witness for C4: with a matching listing the reconciler updates by ARN
without a name; with an empty listing it creates by name without an ARN. -/
theorem c4_branch_selection_witness :
    put_cost_category [[⟨some "CC", some "arn-1"⟩]] "CC" [] "Uncategorized"
        "2024-01-01T00:00:00Z" = Except.ok (ApiCall.update
        ⟨"CostCategoryExpression.v1", [], "Uncategorized", "2024-01-01T00:00:00Z",
          some "arn-1", none⟩)
    ∧ put_cost_category [] "CC" [] "Uncategorized" "2024-01-01T00:00:00Z" =
      Except.ok (ApiCall.create
        ⟨"CostCategoryExpression.v1", [], "Uncategorized", "2024-01-01T00:00:00Z",
          none, some "CC"⟩) :=
  ⟨(c4_branch_selection [[⟨some "CC", some "arn-1"⟩]] "CC" [] "Uncategorized"
      "2024-01-01T00:00:00Z" (by simp) (by simp)).1 "arn-1" (by decide),
   (c4_branch_selection [] "CC" [] "Uncategorized" "2024-01-01T00:00:00Z"
      (by simp) (by simp)).2 (by decide)⟩

/-! ### C6: the reserved root label is always a key of the structure -/

/-- `hasKey` agrees with membership in the key list. -/
theorem hasKey_eq_true_iff (s : List (String × List String)) (k : String) :
    hasKey s k = true ↔ k ∈ s.map Prod.fst := by
  simp [hasKey, List.any_eq_true, List.mem_map]

/-- After `ensureRootKey`, the root label is among the keys. -/
theorem mem_keys_ensureRootKey (s : List (String × List String)) :
    ROOT_CATEGORY_NAME ∈ (ensureRootKey s).map Prod.fst := by
  unfold ensureRootKey
  split
  · next h => exact (hasKey_eq_true_iff s _).mp h
  · simp

/-- C6: every structure returned by `get_organization_structure` has the
reserved root label among its keys, and a zero-account organization returns
exactly the map with the empty root group, as a non-error (`some`) outcome. -/
theorem c6_root_label_present (env : OrgEnv) (fuel max_depth : Nat) :
    (∀ s, get_organization_structure env fuel max_depth = some s →
      ROOT_CATEGORY_NAME ∈ s.map Prod.fst)
    ∧ (env.accounts = [] →
      get_organization_structure env fuel max_depth = some [(ROOT_CATEGORY_NAME, [])]) := by
  constructor
  · intro s h
    unfold get_organization_structure at h
    split at h
    · injection h with h
      subst h
      simp
    · rcases Option.map_eq_some'.mp h with ⟨s0, _, hs⟩
      subst hs
      exact mem_keys_ensureRootKey s0
  · intro h
    unfold get_organization_structure
    rw [if_pos (by simp [h])]

/-- The zero-account organization. -/
def envEmpty : OrgEnv := ⟨[], fun _ => [], fun _ => ""⟩

/-- Witness for C6: the scenario structure has the root key, and the empty
organization yields exactly the empty root group. -/
theorem c6_root_label_present_witness :
    ROOT_CATEGORY_NAME ∈
      (([(ROOT_CATEGORY_NAME, ["A1"]), ("Finance", ["A2", "A3"])] :
        List (String × List String)).map Prod.fst)
    ∧ get_organization_structure envEmpty 1 1 = some [(ROOT_CATEGORY_NAME, [])] :=
  ⟨(c6_root_label_present envScenario 10 1).1
      [(ROOT_CATEGORY_NAME, ["A1"]), ("Finance", ["A2", "A3"])] (by decide),
   (c6_root_label_present envEmpty 1 1).2 rfl⟩

/-! ### C2: depth truncation of the assigned label -/

/-- C2: an account whose resolved path has length at least 1 is labelled, for
any requested depth of at least 1, with the separator-join of the first
`min(depth, length)` path components, and any two depths at or beyond the
path length give the same label. -/
theorem c2_label_depth (env : OrgEnv) (fuel : Nat) (account_id : String)
    (p : List String) (D : Nat)
    (_hres : resolvePath env fuel account_id = some p)
    (hL : 1 ≤ p.length) (_hD : 1 ≤ D) :
    categoryName D p =
      String.intercalate CATEGORY_NAME_SEPARATOR (p.take (min D p.length))
    ∧ ∀ Dp, p.length ≤ D → p.length ≤ Dp → categoryName D p = categoryName Dp p := by
  have hpos : 0 < p.length := hL
  constructor
  · rw [categoryName, if_pos hpos]
    congr 1
    rw [← List.take_take, List.take_length]
  · intro Dp hD1 hD2
    rw [categoryName, if_pos hpos, categoryName, if_pos hpos,
        List.take_of_length_le hD1, List.take_of_length_le hD2]

/-- Witness for C2: for `A3` with path `["Finance", "Payroll"]` the label at
depth 5 is the min-truncated join, and depths 5 and 7 agree. -/
theorem c2_label_depth_witness :
    categoryName 5 ["Finance", "Payroll"] =
      String.intercalate CATEGORY_NAME_SEPARATOR
        ((["Finance", "Payroll"] : List String).take
          (min 5 (["Finance", "Payroll"] : List String).length))
    ∧ categoryName 5 ["Finance", "Payroll"] = categoryName 7 ["Finance", "Payroll"] :=
  ⟨(c2_label_depth envScenario 10 "A3" ["Finance", "Payroll"] 5
      (by decide) (by decide) (by decide)).1,
   (c2_label_depth envScenario 10 "A3" ["Finance", "Payroll"] 5
      (by decide) (by decide) (by decide)).2 7 (by decide) (by decide)⟩

/-! ### C7: the root label is NOT reserved - an OU named "Root" collides -/

/-- An organization whose single OU has the display name "Root". -/
def envRootNamedOu : OrgEnv where
  accounts := ["A1"]
  parentsOf := fun c =>
    if c = "A1" then [⟨"ou-r", "ORGANIZATIONAL_UNIT"⟩]
    else if c = "ou-r" then [⟨"r-1", "ROOT"⟩]
    else []
  ouName := fun _ => "Root"

/-- Counterexample to C7 as stated: account `A1` has the non-empty resolved
path `["Root"]` (its OU is displayed as "Root", effective depth 1), yet it is
assigned the reserved root label, so a non-empty path can receive the root
label. -/
theorem c7_root_label_counterexample :
    resolvePath envRootNamedOu 2 "A1" = some ["Root"]
    ∧ (["Root"] : List String) ≠ []
    ∧ categoryName 1 ["Root"] = ROOT_CATEGORY_NAME
    ∧ get_organization_structure envRootNamedOu 2 1 =
        some [(ROOT_CATEGORY_NAME, ["A1"])] :=
  ⟨by decide, by decide, by decide, by decide⟩

/-- C7 amended: an account with an empty resolved path is assigned the root
label regardless of depth, and an account is assigned the root label exactly
when its path is empty PROVIDED the join of its first `depth` components is
not itself the string "Root"; the label is not reserved against OU chains
whose joined truncation spells "Root". -/
theorem c7_root_label_iff_amended (env : OrgEnv) (fuel : Nat) (account_id : String)
    (p : List String) (D : Nat)
    (_hres : resolvePath env fuel account_id = some p)
    (hne : String.intercalate CATEGORY_NAME_SEPARATOR (p.take D) ≠ ROOT_CATEGORY_NAME) :
    categoryName D p = ROOT_CATEGORY_NAME ↔ p = [] := by
  constructor
  · intro h
    by_cases hp : 0 < p.length
    · rw [categoryName, if_pos hp] at h
      exact absurd h hne
    · exact List.length_eq_zero.mp (by omega)
  · intro h
    subst h
    rfl

/-- Witness for C7 amended: `A2` resolves to `["Finance"]`, whose join is not
"Root", and indeed its label is the root label iff its path were empty. -/
theorem c7_root_label_iff_amended_witness :
    categoryName 1 ["Finance"] = ROOT_CATEGORY_NAME ↔ (["Finance"] : List String) = [] :=
  c7_root_label_iff_amended envScenario 10 "A2" ["Finance"] 1 (by decide) (by decide)

/-! ### C1: the structure partitions the account set -/

/-- Keys after inserting an account: unchanged when the label already exists,
extended at the end by the new label otherwise. -/
theorem insertAccount_keys (s : List (String × List String)) (label a : String) :
    (insertAccount s label a).map Prod.fst =
      if label ∈ s.map Prod.fst then s.map Prod.fst
      else s.map Prod.fst ++ [label] := by
  induction s with
  | nil => simp [insertAccount]
  | cons p t ih =>
    obtain ⟨k, v⟩ := p
    simp only [insertAccount]
    by_cases hk : k = label
    · subst hk
      simp
    · rw [if_neg hk]
      simp only [List.map_cons, ih]
      by_cases hmem : label ∈ t.map Prod.fst
      · simp [hmem, Ne.symm hk]
      · simp [hmem, Ne.symm hk]

/-- Inserting an account preserves key uniqueness. -/
theorem insertAccount_keys_nodup (s : List (String × List String)) (label a : String)
    (h : (s.map Prod.fst).Nodup) :
    ((insertAccount s label a).map Prod.fst).Nodup := by
  rw [insertAccount_keys]
  split
  · exact h
  · next hmem =>
    refine List.Nodup.append h (List.nodup_singleton label) ?_
    intro x hx hy
    rw [List.mem_singleton] at hy
    subst hy
    exact hmem hx

/-- Inserting an account adds exactly that account id to the multiset of all
grouped ids. -/
theorem insertAccount_flatten (s : List (String × List String)) (label a : String) :
    List.Perm ((insertAccount s label a).map Prod.snd).flatten
      (((s.map Prod.snd).flatten) ++ [a]) := by
  induction s with
  | nil => simp [insertAccount]
  | cons p t ih =>
    obtain ⟨k, v⟩ := p
    simp only [insertAccount]
    by_cases hk : k = label
    · rw [if_pos hk]
      simp only [List.map_cons, List.flatten_cons]
      have h1 : List.Perm ([a] ++ ((t.map Prod.snd).flatten))
          (((t.map Prod.snd).flatten) ++ [a]) := List.perm_append_comm
      have h2 := h1.append_left v
      simpa [List.append_assoc] using h2
    · rw [if_neg hk]
      simp only [List.map_cons, List.flatten_cons]
      have h2 := ih.append_left v
      simpa [List.append_assoc] using h2

/-- Invariant of the per-account loop: key uniqueness is preserved and the
multiset of grouped ids grows by exactly the processed accounts. -/
theorem buildStructure_spec (env : OrgEnv) (fuel max_depth : Nat) :
    ∀ (accts : List String) (s s' : List (String × List String)),
      buildStructure env fuel max_depth accts s = some s' →
      ((s.map Prod.fst).Nodup → (s'.map Prod.fst).Nodup)
      ∧ List.Perm ((s'.map Prod.snd).flatten) (((s.map Prod.snd).flatten) ++ accts) := by
  intro accts
  induction accts with
  | nil =>
    intro s s' h
    injection h with h
    subst h
    exact ⟨id, by simp⟩
  | cons a t ih =>
    intro s s' h
    simp only [buildStructure] at h
    cases hres : resolvePath env fuel a with
    | none => rw [hres] at h; cases h
    | some p =>
      rw [hres] at h
      obtain ⟨hnd, hperm⟩ := ih _ _ h
      refine ⟨fun hs => hnd (insertAccount_keys_nodup _ _ _ hs), ?_⟩
      have h2 := (insertAccount_flatten s (categoryName max_depth p) a).append_right t
      have h3 := hperm.trans h2
      simpa [List.append_assoc] using h3

/-- `ensureRootKey` never touches the grouped account ids. -/
theorem ensureRootKey_flatten (s : List (String × List String)) :
    ((ensureRootKey s).map Prod.snd).flatten = (s.map Prod.snd).flatten := by
  unfold ensureRootKey
  split
  · rfl
  · simp

/-- `ensureRootKey` preserves key uniqueness. -/
theorem ensureRootKey_keys_nodup (s : List (String × List String))
    (h : (s.map Prod.fst).Nodup) : ((ensureRootKey s).map Prod.fst).Nodup := by
  unfold ensureRootKey
  split
  · exact h
  · next hk =>
    have hmem : ROOT_CATEGORY_NAME ∉ s.map Prod.fst := by
      intro hm
      exact hk ((hasKey_eq_true_iff s _).mpr hm)
    simp only [List.map_append, List.map_cons, List.map_nil]
    refine List.Nodup.append h (List.nodup_singleton _) ?_
    intro x hx hy
    rw [List.mem_singleton] at hy
    subst hy
    exact hmem hx

/-- C1: the returned structure partitions the organization's account set:
labels are pairwise distinct, the grouped ids are a permutation of the full
account list (no omission, no invention), and every account id occurs exactly
once across all groups (no duplication, in exactly one label's list). -/
theorem c1_partition (env : OrgEnv) (fuel max_depth : Nat)
    (s : List (String × List String)) (hacc : env.accounts.Nodup)
    (h : get_organization_structure env fuel max_depth = some s) :
    (s.map Prod.fst).Nodup
    ∧ List.Perm ((s.map Prod.snd).flatten) env.accounts
    ∧ ∀ a ∈ env.accounts, ((s.map Prod.snd).flatten).count a = 1 := by
  have key : (s.map Prod.fst).Nodup
      ∧ List.Perm ((s.map Prod.snd).flatten) env.accounts := by
    unfold get_organization_structure at h
    split at h
    · next he =>
      injection h with h
      subst h
      refine ⟨by simp, ?_⟩
      rw [List.isEmpty_iff.mp he]
      simp
    · rcases Option.map_eq_some'.mp h with ⟨s0, hb, hs⟩
      subst hs
      obtain ⟨hnd, hperm⟩ := buildStructure_spec env fuel max_depth env.accounts [] s0 hb
      refine ⟨ensureRootKey_keys_nodup s0 (hnd (by simp)), ?_⟩
      rw [ensureRootKey_flatten]
      simpa using hperm
  refine ⟨key.1, key.2, fun a ha => ?_⟩
  rw [key.2.count_eq a]
  exact List.count_eq_one_of_mem hacc ha

/-- The structure the scenario organization produces at depth 1. -/
def sScenario : List (String × List String) := [("Root", ["A1"]), ("Finance", ["A2", "A3"])]

/-- Witness for C1: in the scenario structure the labels are distinct, the
grouped ids are a permutation of the three accounts, and `A3` occurs exactly
once. -/
theorem c1_partition_witness :
    (sScenario.map Prod.fst).Nodup
    ∧ List.Perm ((sScenario.map Prod.snd).flatten) envScenario.accounts
    ∧ ((sScenario.map Prod.snd).flatten).count "A3" = 1 :=
  ⟨(c1_partition envScenario 10 1 sScenario (by decide) (by decide)).1,
   (c1_partition envScenario 10 1 sScenario (by decide) (by decide)).2.1,
   (c1_partition envScenario 10 1 sScenario (by decide) (by decide)).2.2 "A3" (by decide)⟩

/-! ### C5 and C9: the rule compiler -/

/-- `lookup` on the head key. -/
theorem lookup_cons_self {β : Type} (k : String) (v : β) (t : List (String × β)) :
    List.lookup k ((k, v) :: t) = some v := by
  simp [List.lookup_cons]

/-- `lookup` skips a head entry with a different key. -/
theorem lookup_cons_ne {β : Type} (k a : String) (v : β) (t : List (String × β))
    (h : ¬ (k = a)) : List.lookup k ((a, v) :: t) = List.lookup k t := by
  have hb : (k == a) = false := beq_eq_false_iff_ne.mpr h
  simp [List.lookup_cons, hb]

/-- A successful lookup means the key occurs among the keys. -/
theorem lookup_some_mem_keys {β : Type} (k : String) (l : List (String × β)) (v : β)
    (h : List.lookup k l = some v) : k ∈ l.map Prod.fst := by
  induction l with
  | nil => simp [List.lookup] at h
  | cons p t ih =>
    obtain ⟨a, b⟩ := p
    by_cases hk : k = a
    · subst hk
      simp
    · rw [lookup_cons_ne k a b t hk] at h
      simp only [List.map_cons]
      exact List.mem_cons_of_mem a (ih h)

/-- A lookup fails exactly when the key is absent. -/
theorem lookup_eq_none_iff {β : Type} (k : String) (l : List (String × β)) :
    List.lookup k l = none ↔ k ∉ l.map Prod.fst := by
  induction l with
  | nil => simp [List.lookup]
  | cons p t ih =>
    obtain ⟨a, b⟩ := p
    by_cases hk : k = a
    · subst hk
      rw [lookup_cons_self]
      simp
    · rw [lookup_cons_ne k a b t hk, ih]
      simp [List.mem_cons, hk]

/-- Under unique keys, a lookup result is exactly a member pair. -/
theorem lookup_eq_some_iff_mem {β : Type} (k : String) (l : List (String × β)) (v : β)
    (hnd : (l.map Prod.fst).Nodup) :
    List.lookup k l = some v ↔ (k, v) ∈ l := by
  induction l with
  | nil => simp [List.lookup]
  | cons p t ih =>
    obtain ⟨a, b⟩ := p
    simp only [List.map_cons, List.nodup_cons] at hnd
    obtain ⟨ha, hndt⟩ := hnd
    by_cases hk : k = a
    · subst hk
      rw [lookup_cons_self]
      constructor
      · intro h
        injection h with h
        subst h
        exact List.mem_cons_self _ _
      · intro h
        rcases List.mem_cons.mp h with h | h
        · rw [Prod.mk.injEq] at h
          rw [h.2]
        · exact absurd (List.mem_map.mpr ⟨(k, v), h, rfl⟩) ha
    · rw [lookup_cons_ne k a b t hk, ih hndt]
      simp [List.mem_cons, Prod.mk.injEq, hk]

/-- Under unique keys, lookups are invariant under permutation of the
association list. -/
theorem perm_lookup_eq {β : Type} (s t : List (String × β))
    (hp : List.Perm s t) (hnd : (s.map Prod.fst).Nodup) (k : String) :
    List.lookup k s = List.lookup k t := by
  have hndt : (t.map Prod.fst).Nodup := ((hp.map Prod.fst).nodup_iff).mp hnd
  cases h : List.lookup k t with
  | none =>
    rw [lookup_eq_none_iff] at h ⊢
    intro hm
    exact h ((hp.map Prod.fst).mem_iff.mp hm)
  | some v =>
    rw [lookup_eq_some_iff_mem k s v hnd]
    rw [lookup_eq_some_iff_mem k t v hndt] at h
    exact hp.mem_iff.mpr h

/-- A key whose lookup fails emits no rule. -/
theorem ruleForKey_none (s : List (String × PyVal)) (k : String)
    (hl : List.lookup k s = none) : ruleForKey s k = none := by
  unfold ruleForKey
  rw [hl]

/-- A key bound to a non-list value emits no rule. -/
theorem ruleForKey_other (s : List (String × PyVal)) (k : String)
    (hl : List.lookup k s = some PyVal.other) : ruleForKey s k = none := by
  unfold ruleForKey
  rw [hl]

/-- A key bound to an empty list emits no rule. -/
theorem ruleForKey_nil (s : List (String × PyVal)) (k : String)
    (hl : List.lookup k s = some (PyVal.vlist [])) : ruleForKey s k = none := by
  unfold ruleForKey
  rw [hl]
  simp

/-- A key with a looked-up non-empty list always emits its rule. -/
theorem ruleForKey_of_lookup (s : List (String × PyVal)) (k : String) (l : List String)
    (hl : List.lookup k s = some (PyVal.vlist l)) (hne : l ≠ []) :
    ruleForKey s k = some ⟨k, "LINKED_ACCOUNT", l, ["EQUALS"]⟩ := by
  unfold ruleForKey
  rw [hl]
  show (if l = [] then none
    else some (⟨k, "LINKED_ACCOUNT", l, ["EQUALS"]⟩ : CCRule)) = _
  rw [if_neg hne]

/-- Inversion of one compiler step: an emitted rule records its key as label,
carries the looked-up non-empty account list, and the two constant fields. -/
theorem ruleForKey_inv (s : List (String × PyVal)) (k : String) (r : CCRule)
    (h : ruleForKey s k = some r) :
    List.lookup k s = some (PyVal.vlist r.Values) ∧ r.Values ≠ []
      ∧ r.Value = k ∧ r.DimensionKey = "LINKED_ACCOUNT" ∧ r.MatchOptions = ["EQUALS"] := by
  cases hl : List.lookup k s with
  | none =>
    rw [ruleForKey_none s k hl] at h
    exact Option.noConfusion h
  | some v =>
    cases v with
    | other =>
      rw [ruleForKey_other s k hl] at h
      exact Option.noConfusion h
    | vlist l =>
      by_cases he : l = []
      · subst he
        rw [ruleForKey_nil s k hl] at h
        exact Option.noConfusion h
      · rw [ruleForKey_of_lookup s k l hl he] at h
        injection h with h
        subst h
        exact ⟨rfl, he, rfl, rfl, rfl⟩

/-- The emitted labels are the keys that pass the compiler's skip test, in
key order. -/
theorem map_value_filterMap (s : List (String × PyVal)) (ks : List String) :
    ((ks.filterMap (ruleForKey s)).map CCRule.Value) =
      ks.filter (fun k => (ruleForKey s k).isSome) := by
  induction ks with
  | nil => rfl
  | cons k t ih =>
    cases h : ruleForKey s k with
    | none => simp [List.filterMap_cons, List.filter_cons, h, ih]
    | some r =>
      have hv : r.Value = k := (ruleForKey_inv s k r h).2.2.1
      simp [List.filterMap_cons, List.filter_cons, h, ih, hv]

/-- C5: given unique labels, the compiled rule list is sorted by label with
pairwise-distinct labels; a rule for label `k` with list `l` is emitted
exactly when the structure maps `k` to the proper non-empty list `l` (missing
keys, non-list groups and empty lists produce no rule); and every emitted
rule's match predicate enumerates exactly its label's account-id list. -/
theorem c5_rule_compiler (s : List (String × PyVal)) (hnd : (s.map Prod.fst).Nodup) :
    List.Sorted (fun a b : String => a ≤ b)
      ((build_cost_category_rules s).map CCRule.Value)
    ∧ ((build_cost_category_rules s).map CCRule.Value).Nodup
    ∧ (∀ (k : String) (l : List String),
        (⟨k, "LINKED_ACCOUNT", l, ["EQUALS"]⟩ : CCRule) ∈ build_cost_category_rules s ↔
          (List.lookup k s = some (PyVal.vlist l) ∧ l ≠ []))
    ∧ (∀ r ∈ build_cost_category_rules s,
        List.lookup r.Value s = some (PyVal.vlist r.Values) ∧ r.Values ≠ []
          ∧ r.DimensionKey = "LINKED_ACCOUNT" ∧ r.MatchOptions = ["EQUALS"]) := by
  by_cases hse : s.isEmpty
  · have hs : s = [] := List.isEmpty_iff.mp hse
    subst hs
    refine ⟨?_, ?_, ?_, ?_⟩
    · simp [build_cost_category_rules]
    · simp [build_cost_category_rules]
    · intro k l
      simp [build_cost_category_rules, List.lookup]
    · intro r hr
      simp [build_cost_category_rules] at hr
  · have hbuild : build_cost_category_rules s =
        (List.insertionSort (fun a b : String => a ≤ b)
          (s.map Prod.fst)).filterMap (ruleForKey s) := by
      unfold build_cost_category_rules
      rw [if_neg (by simp [hse])]
    have hsortnd : (List.insertionSort (fun a b : String => a ≤ b)
        (s.map Prod.fst)).Nodup :=
      ((List.perm_insertionSort _ _).nodup_iff).mpr hnd
    refine ⟨?_, ?_, ?_, ?_⟩
    · rw [hbuild, map_value_filterMap]
      exact (List.sorted_insertionSort _ _).sublist (List.filter_sublist _)
    · rw [hbuild, map_value_filterMap]
      exact hsortnd.sublist (List.filter_sublist _)
    · intro k l
      rw [hbuild]
      constructor
      · intro hm
        rcases List.mem_filterMap.mp hm with ⟨k', _, hk'⟩
        have hinv := ruleForKey_inv s k' _ hk'
        have : k = k' := hinv.2.2.1
        subst this
        exact ⟨hinv.1, hinv.2.1⟩
      · rintro ⟨hl, hne⟩
        refine List.mem_filterMap.mpr ⟨k, ?_, ruleForKey_of_lookup s k l hl hne⟩
        rw [List.mem_insertionSort]
        exact lookup_some_mem_keys k s _ hl
    · intro r hr
      rw [hbuild] at hr
      rcases List.mem_filterMap.mp hr with ⟨k', _, hk'⟩
      have hinv := ruleForKey_inv s k' r hk'
      rw [hinv.2.2.1]
      exact ⟨hinv.1, hinv.2.1, hinv.2.2.2⟩

/-- A structure with a proper non-empty group, an empty group and a non-list
group. -/
def sPy : List (String × PyVal) :=
  [("Root", PyVal.vlist ["A1"]), ("Finance", PyVal.vlist ["A2", "A3"]),
   ("Empty", PyVal.vlist []), ("Bad", PyVal.other)]

/-- Witness for C5 on `sPy`: sorted distinct labels, the Finance rule is
emitted iff its group is a non-empty list, and its predicate lists exactly
that group. -/
theorem c5_rule_compiler_witness :
    List.Sorted (fun a b : String => a ≤ b)
      ((build_cost_category_rules sPy).map CCRule.Value)
    ∧ ((build_cost_category_rules sPy).map CCRule.Value).Nodup
    ∧ ((⟨"Finance", "LINKED_ACCOUNT", ["A2", "A3"], ["EQUALS"]⟩ : CCRule) ∈
          build_cost_category_rules sPy ↔
        (List.lookup "Finance" sPy = some (PyVal.vlist ["A2", "A3"])
          ∧ (["A2", "A3"] : List String) ≠ []))
    ∧ (List.lookup "Finance" sPy = some (PyVal.vlist ["A2", "A3"])
        ∧ (["A2", "A3"] : List String) ≠ []
        ∧ "LINKED_ACCOUNT" = "LINKED_ACCOUNT"
        ∧ (["EQUALS"] : List String) = ["EQUALS"]) :=
  ⟨(c5_rule_compiler sPy (by decide)).1,
   (c5_rule_compiler sPy (by decide)).2.1,
   (c5_rule_compiler sPy (by decide)).2.2.1 "Finance" ["A2", "A3"],
   (c5_rule_compiler sPy (by decide)).2.2.2
      ⟨"Finance", "LINKED_ACCOUNT", ["A2", "A3"], ["EQUALS"]⟩
      (((c5_rule_compiler sPy (by decide)).2.2.1 "Finance" ["A2", "A3"]).mpr
        ⟨by decide, by decide⟩)⟩

/-- C9: the rule compiler is a deterministic function of its input - the same
structure always yields the identical ordered output - and the output depends
only on the key-to-group mapping: permuting the association order of a
structure with unique keys leaves the compiled rules unchanged. -/
theorem c9_compiler_deterministic (s : List (String × PyVal)) :
    build_cost_category_rules s = build_cost_category_rules s
    ∧ ∀ t, List.Perm s t → (s.map Prod.fst).Nodup →
        build_cost_category_rules s = build_cost_category_rules t := by
  refine ⟨rfl, fun t hp hnd => ?_⟩
  have hemp : s.isEmpty = t.isEmpty := by
    cases s <;> cases t <;> simp_all
  have hkeys : List.insertionSort (fun a b : String => a ≤ b) (s.map Prod.fst) =
      List.insertionSort (fun a b : String => a ≤ b) (t.map Prod.fst) := by
    refine List.eq_of_perm_of_sorted ?_
      (List.sorted_insertionSort _ _) (List.sorted_insertionSort _ _)
    exact (List.perm_insertionSort _ _).trans
      ((hp.map Prod.fst).trans (List.perm_insertionSort _ _).symm)
  unfold build_cost_category_rules
  rw [hemp, hkeys]
  by_cases he : t.isEmpty
  · rw [if_pos he, if_pos he]
  · rw [if_neg he, if_neg he]
    exact List.filterMap_congr fun k _ => by
      unfold ruleForKey
      rw [perm_lookup_eq s t hp hnd k]

/-- Witness for C9: swapping the two entries of a two-key structure leaves
the compiled rules unchanged. -/
theorem c9_compiler_deterministic_witness :
    build_cost_category_rules [("b", PyVal.vlist ["2"]), ("a", PyVal.vlist ["1"])] =
      build_cost_category_rules [("a", PyVal.vlist ["1"]), ("b", PyVal.vlist ["2"])] :=
  (c9_compiler_deterministic [("b", PyVal.vlist ["2"]), ("a", PyVal.vlist ["1"])]).2
    [("a", PyVal.vlist ["1"]), ("b", PyVal.vlist ["2"])]
    (List.Perm.swap ("a", PyVal.vlist ["1"]) ("b", PyVal.vlist ["2"]) [])
    (by decide)

end PutOuCostCategory
